import Mathlib

/-!
Shallow embedding of the `spotify-analytics` repository (src/db.rs, src/main.rs).

Modelling conventions:
* `chrono::DateTime<Utc>` timestamps are modelled as `Int` (an instant on a
  totally ordered line).  chrono's type is bounded: `DateTime::<Utc>::MIN_UTC`
  and `DateTime::<Utc>::MAX_UTC` are its least and greatest representable
  values; they are modelled by the constants `MIN_UTC` and `MAX_UTC` below
  (second granularity; only their ordering and extremality matter here).
* Rust `u64` values (`ms_played`, `offline_timestamp`) are modelled as `Nat`;
  `u64::saturating_add` becomes `satAdd`, clamping at `U64MAX = 2^64 - 1`.
* The SQLite database behind `get_db()` is modelled as `Store`, a list of
  rows; `INSERT` appends a row, `SELECT * FROM spotify_history` returns the
  rows.  Row (de)serialization is by-name field binding and is faithfully
  the identity on `SpotifyHistoryEntry`.
* `std::collections::HashMap` in `get_all_top_artists` is modelled as an
  association list keyed by first insertion (iteration order of the Rust
  map is unspecified; every order-independent property proved below holds
  for any iteration order).  `Vec::sort_by` is a stable sort, modelled by
  `List.insertionSort` (also stable).
* Filesystem directories (`fs::read_dir`) are modelled as a list of
  `DirEntry`; each entry records whether it is a regular file, its
  `Path::extension()`, and the outcome of `fs::read` + `serde_json`
  deserialization of its bytes (`parsed`).
* `&mut self` methods are state-passing functions; the `?` operator is the
  usual early return, modelled with explicit error options / `Except`.
-/

/-- Largest value of Rust `u64`. -/
def U64MAX : Nat := 2 ^ 64 - 1

/-- Rust `u64::saturating_add`: clamps at `U64MAX` instead of wrapping. -/
def satAdd (a b : Nat) : Nat := min (a + b) U64MAX

/-- Constant `chrono::DateTime::<Utc>::MIN_UTC`, the least representable timestamp
(seconds since the Unix epoch). -/
def MIN_UTC : Int := -8334601228800

/-- Constant `chrono::DateTime::<Utc>::MAX_UTC`, the greatest representable timestamp
(seconds since the Unix epoch). -/
def MAX_UTC : Int := 8210266876799

/-- One row of Spotify extended streaming history (struct
`SpotifyHistoryEntry` in src/db.rs). -/
structure SpotifyHistoryEntry where
  ts : Int
  username : Option String
  platform : Option String
  ms_played : Nat
  conn_country : Option String
  ip_addr_decrypted : Option String
  user_agent_decrypted : Option String
  master_metadata_track_name : Option String
  master_metadata_album_artist_name : Option String
  master_metadata_album_album_name : Option String
  spotify_track_uri : Option String
  episode_name : Option String
  episode_show_name : Option String
  spotify_episode_uri : Option String
  reason_start : Option String
  reason_end : Option String
  shuffle : Option Bool
  skipped : Option Bool
  offline : Option Bool
  offline_timestamp : Option Nat
  incognito_mode : Option Bool
deriving DecidableEq

/-- The SQLite table `spotify_history` behind `get_db()`: a bag of rows.
`insert` appends; `SELECT *` yields the rows in order. -/
structure Store where
  rows : List SpotifyHistoryEntry
deriving DecidableEq

/-- Statement `INSERT INTO spotify_history VALUES (...)` with all fields bound by
name: appends one row. -/
def Store.insert (st : Store) (e : SpotifyHistoryEntry) : Store :=
  ⟨st.rows ++ [e]⟩

/-- Query `SELECT * FROM spotify_history` deserialized row by row. -/
def Store.load_all (st : Store) : List SpotifyHistoryEntry := st.rows

/-- Expression `history.iter().max_by_key(|x| x.ts).map(|x| x.ts).unwrap_or(MIN_UTC)`. -/
def maxTsOf : List SpotifyHistoryEntry → Int
  | [] => MIN_UTC
  | x :: xs => xs.foldl (fun a y => max a y.ts) x.ts

/-- Expression `history.iter().min_by_key(|x| x.ts).map(|x| x.ts).unwrap_or(MAX_UTC)`. -/
def minTsOf : List SpotifyHistoryEntry → Int
  | [] => MAX_UTC
  | x :: xs => xs.foldl (fun a y => min a y.ts) x.ts

/-- struct `SpotifyAnalytics`: the in-memory working set plus the two
load-time scalars. -/
structure SpotifyAnalytics where
  history : List SpotifyHistoryEntry
  max_ts : Int
  min_ts : Int
deriving DecidableEq

/-- Constructor `SpotifyAnalytics::new()`: load every row from the store, derive
`max_ts` / `min_ts` from the loaded set (with the `unwrap_or` defaults for
an empty store). -/
def SpotifyAnalytics.new (st : Store) : SpotifyAnalytics :=
  { history := st.load_all
    max_ts := maxTsOf st.load_all
    min_ts := minTsOf st.load_all }

/-- Statement `self.history.extend(history)`: the merge step at the end of
`deserialize_extended_streaming_history_json`, appending freshly parsed
events to the working set. -/
def SpotifyAnalytics.merge (s : SpotifyAnalytics) (evs : List SpotifyHistoryEntry) :
    SpotifyAnalytics :=
  { s with history := s.history ++ evs }

/-- The range filter of `save()`:
`self.history.iter().filter(|x| x.ts > self.max_ts && x.ts < self.min_ts)`. -/
def savedEvents (s : SpotifyAnalytics) : List SpotifyHistoryEntry :=
  s.history.filter fun x => decide (s.max_ts < x.ts) && decide (x.ts < s.min_ts)

/-- A failed `stmt.execute(...)` for a row, reported with the offending
record (the `with_context(|| format!("{:?}", e))` annotation). -/
inductive SaveError where
  | storageError (e : SpotifyHistoryEntry)
deriving DecidableEq

/-- The insert loop of `save()`: writes each event in order until `ok`
reports an execution failure; rows inserted before a failure stay committed
(no enclosing transaction). -/
def saveLoop (ok : SpotifyHistoryEntry → Bool) :
    Store → List SpotifyHistoryEntry → Store × Option SaveError
  | st, [] => (st, none)
  | st, e :: t =>
    if ok e then saveLoop ok (st.insert e) t else (st, some (.storageError e))

/-- Method `SpotifyAnalytics::save(&self)`: filter the working set by the range
condition and insert the survivors one by one.  `ok` is the environment's
verdict on each `stmt.execute` call. -/
def SpotifyAnalytics.save (s : SpotifyAnalytics) (st : Store)
    (ok : SpotifyHistoryEntry → Bool) : Store × Option SaveError :=
  saveLoop ok st (savedEvents s)

/-- One call of `save()` observed together with the caller's
`SpotifyAnalytics` value: the method borrows `&self` immutably (and the
struct has no interior mutability), so the in-memory state the caller holds
afterwards is the value it held before. -/
def saveCall (s : SpotifyAnalytics) (st : Store) (ok : SpotifyHistoryEntry → Bool) :
    SpotifyAnalytics × Store × Option SaveError :=
  (s, s.save st ok)

/-- Field accessor used by the aggregation. -/
def artistOf (x : SpotifyHistoryEntry) : Option String :=
  x.master_metadata_album_artist_name

/-- Statement `let p = s.entry(a.as_str()).or_insert(0_u64); *p = p.saturating_add(x.ms_played)`
on the association-list model of the `HashMap`: update the key in place, or
append it (value `0` then saturating-add) when absent. -/
def bumpArtist : List (String × Nat) → String → Nat → List (String × Nat)
  | [], a, m => [(a, satAdd 0 m)]
  | (k, v) :: t, a, m =>
    if k = a then (k, satAdd v m) :: t else (k, v) :: bumpArtist t a m

/-- Body of the grouping loop of `get_all_top_artists`: events without an
artist name are skipped. -/
def groupStep (s : List (String × Nat)) (x : SpotifyHistoryEntry) :
    List (String × Nat) :=
  match artistOf x with
  | some a => bumpArtist s a x.ms_played
  | none => s

/-- The grouping loop of `get_all_top_artists` over the working set. -/
def groupArtists (h : List SpotifyHistoryEntry) : List (String × Nat) :=
  h.foldl groupStep []

/-- The comparator of `r.sort_by(|a, b| b.1.cmp(&a.1))` (descending by
total). -/
def artistGE (a b : String × Nat) : Prop := b.2 ≤ a.2

instance : DecidableRel artistGE := fun a b => Nat.decLe b.2 a.2

instance : IsTotal (String × Nat) artistGE := ⟨fun a b => Nat.le_total b.2 a.2⟩

instance : IsTrans (String × Nat) artistGE :=
  ⟨fun _ _ _ h1 h2 => Nat.le_trans h2 h1⟩

/-- Method `SpotifyAnalytics::get_all_top_artists`: group by artist, then a stable
sort by total descending. -/
def SpotifyAnalytics.get_all_top_artists (s : SpotifyAnalytics) :
    List (String × Nat) :=
  (groupArtists s.history).insertionSort artistGE

/-- Method `SpotifyAnalytics::get_top_10_artists`:
`self.get_all_top_artists().into_iter().take(10).collect()`. -/
def SpotifyAnalytics.get_top_10_artists (s : SpotifyAnalytics) :
    List (String × Nat) :=
  s.get_all_top_artists.take 10

/-- Modelled from the spec: `top_n_artists(n)` — "same as `top_artists()`,
truncated to the first `n` entries after sorting".  The source only
instantiates it at `n = 10` (`get_top_10_artists`); the general operation
is taken from the spec's words. -/
def top_n_artists (s : SpotifyAnalytics) (n : Nat) : List (String × Nat) :=
  s.get_all_top_artists.take n

/-- Milliseconds-played sum of a list of events (exact, unclamped). -/
def msSum (l : List SpotifyHistoryEntry) : Nat :=
  (l.map (·.ms_played)).sum

/-- The events of `h` credited to artist `a` by the grouping loop. -/
def matching (h : List SpotifyHistoryEntry) (a : String) :
    List SpotifyHistoryEntry :=
  h.filter fun x => decide (artistOf x = some a)

/-- One entry of `fs::read_dir`, together with what reading and
JSON-deserializing it would yield. -/
structure DirEntry where
  path : String
  file : Bool
  extension : Option String
  parsed : Except String (List SpotifyHistoryEntry)

/-- Import errors: a file whose bytes failed
`serde_json::from_slice::<Vec<SpotifyHistoryEntry>>`, reported with the
file's path (recorded by the `#[instrument]` span of
`deserialize_extended_streaming_history_json`). -/
inductive ImportError where
  | parseError (path : String) (msg : String)
deriving DecidableEq

/-- Method `deserialize_extended_streaming_history_json(path)`: read and parse the
whole file, then extend the working set; on a parse failure the working set
is untouched and the error propagates. -/
def importJsonFile (s : SpotifyAnalytics) (e : DirEntry) :
    SpotifyAnalytics × Option ImportError :=
  match e.parsed with
  | .ok evs => (s.merge evs, none)
  | .error m => (s, some (.parseError e.path m))

/-- Method `deserialize_extended_streaming_history_json_files_from_folder`: walk
the entries in order; skip non-files; skip files whose `extension()` is
`Some(ext)` with `ext != "json"` (an entry with no extension falls through
the `if let` and is imported); stop at the first failing import. -/
def importFolder (s : SpotifyAnalytics) :
    List DirEntry → SpotifyAnalytics × Option ImportError
  | [] => (s, none)
  | e :: rest =>
    if e.file = false then importFolder s rest
    else
      match e.extension with
      | some ext =>
        if ext ≠ "json" then importFolder s rest
        else
          match importJsonFile s e with
          | (s2, none) => importFolder s2 rest
          | (s2, some err) => (s2, some err)
      | none =>
        match importJsonFile s e with
        | (s2, none) => importFolder s2 rest
        | (s2, some err) => (s2, some err)

/-- The entries the folder walk hands to the single-file import: regular
files whose extension is `json` — or missing altogether. -/
def shouldProcess (e : DirEntry) : Bool :=
  e.file && match e.extension with
            | some ext => decide (ext = "json")
            | none => true

/-- Sequential single-file import of a list of entries with no skipping:
the normal form `importFolder` reduces to after filtering. -/
def importAll (s : SpotifyAnalytics) :
    List DirEntry → SpotifyAnalytics × Option ImportError
  | [] => (s, none)
  | e :: rest =>
    match importJsonFile s e with
    | (s2, none) => importAll s2 rest
    | (s2, some err) => (s2, some err)

/-- Whether an entry's bytes parse. -/
def parsedOk (e : DirEntry) : Bool :=
  match e.parsed with
  | .ok _ => true
  | .error _ => false

/-- The events an entry contributes when it parses. -/
def okEvents (e : DirEntry) : List SpotifyHistoryEntry :=
  match e.parsed with
  | .ok evs => evs
  | .error _ => []

/-- A concrete event with the given timestamp, artist and play time; every
other field absent. -/
def mkEv (t : Int) (artist : Option String) (ms : Nat) : SpotifyHistoryEntry :=
  ⟨t, none, none, ms, none, none, none, none, artist, none, none, none, none,
    none, none, none, none, none, none, none, none⟩

/- ### Load-time extremality of `max_ts` / `min_ts` -/

theorem le_foldl_max (l : List SpotifyHistoryEntry) :
    ∀ a : Int, a ≤ l.foldl (fun acc y => max acc y.ts) a := by
  induction l with
  | nil => intro a; exact le_refl a
  | cons x xs ih =>
    intro a
    exact le_trans (le_max_left a x.ts) (ih (max a x.ts))

theorem foldl_min_le (l : List SpotifyHistoryEntry) :
    ∀ a : Int, l.foldl (fun acc y => min acc y.ts) a ≤ a := by
  induction l with
  | nil => intro a; exact le_refl a
  | cons x xs ih =>
    intro a
    exact le_trans (ih (min a x.ts)) (min_le_left a x.ts)

theorem minTsOf_le_maxTsOf (rows : List SpotifyHistoryEntry) (h : rows ≠ []) :
    minTsOf rows ≤ maxTsOf rows := by
  match rows with
  | [] => exact absurd rfl h
  | x :: xs =>
    exact le_trans (foldl_min_le xs x.ts) (le_foldl_max xs x.ts)

/-- Claim C1: for a working set whose loaded event set was non-empty, the
range filter `ts > max_ts && ts < min_ts` of `save()` is unsatisfiable —
`max_ts` is the maximum and `min_ts` the minimum of the same loaded set —
so `save()` writes zero rows to the store, however many events were merged
afterwards. -/
theorem C1_save_writes_nothing_after_nonempty_load
    (rows : List SpotifyHistoryEntry) (h : rows ≠ [])
    (extra : List SpotifyHistoryEntry) (st : Store)
    (ok : SpotifyHistoryEntry → Bool) :
    savedEvents ((SpotifyAnalytics.new ⟨rows⟩).merge extra) = [] ∧
    ((SpotifyAnalytics.new ⟨rows⟩).merge extra).save st ok = (st, none) := by
  have hminmax : minTsOf rows ≤ maxTsOf rows := minTsOf_le_maxTsOf rows h
  have hempty : savedEvents ((SpotifyAnalytics.new ⟨rows⟩).merge extra) = [] := by
    apply List.filter_eq_nil_iff.mpr
    intro x _
    simp only [SpotifyAnalytics.merge, SpotifyAnalytics.new, Store.load_all,
      Bool.and_eq_true, decide_eq_true_eq, not_and]
    intro h1 h2
    omega
  refine ⟨hempty, ?_⟩
  simp [SpotifyAnalytics.save, hempty, saveLoop]

/-- Witness for C1 at a concrete one-event load and one merged event. -/
theorem C1_witness :
    savedEvents ((SpotifyAnalytics.new ⟨[mkEv 0 none 0]⟩).merge [mkEv 5 none 0]) = [] ∧
    ((SpotifyAnalytics.new ⟨[mkEv 0 none 0]⟩).merge [mkEv 5 none 0]).save ⟨[]⟩
      (fun _ => true) = (⟨[]⟩, none) :=
  C1_save_writes_nothing_after_nonempty_load [mkEv 0 none 0] (by decide)
    [mkEv 5 none 0] ⟨[]⟩ (fun _ => true)

/- ### The empty-store save path -/

theorem saveLoop_all_ok (l : List SpotifyHistoryEntry) :
    ∀ st : Store, saveLoop (fun _ => true) st l = (⟨st.rows ++ l⟩, none) := by
  induction l with
  | nil => intro st; simp [saveLoop]
  | cons e t ih =>
    intro st
    simp [saveLoop, Store.insert, ih]

/-- Counterexample to claim C2 as stated: with an empty initial store, an
event merged with timestamp exactly `MIN_UTC` (a representable chrono
instant) fails the strict comparison `ts > max_ts` of the range filter and
is written zero times, not once. -/
theorem C2_counterexample :
    mkEv MIN_UTC none 1 ∈
      ((SpotifyAnalytics.new ⟨[]⟩).merge [mkEv MIN_UTC none 1]).history ∧
    ((SpotifyAnalytics.new ⟨[]⟩).merge [mkEv MIN_UTC none 1]).save ⟨[]⟩
      (fun _ => true) = (⟨[]⟩, none) := by
  exact ⟨by decide, by decide⟩

/-- Claim C2 (amended): for a working set constructed from an empty store
(`max_ts = MIN_UTC`, `min_ts = MAX_UTC`), `save()` after one `merge()` of
any event list writes exactly the merged events whose timestamps lie
strictly between the minimum and maximum representable instants, in merge
order — each such event as often as it was merged, so exactly once for a
distinct event — while merged events at exactly `MIN_UTC` or `MAX_UTC`
fail the strict comparisons and are skipped (the only change from the
claim as stated); a stored row reads back from the store as the same
record. -/
theorem C2_empty_store_save_roundtrip (evs : List SpotifyHistoryEntry) :
    ((SpotifyAnalytics.new ⟨[]⟩).merge evs).save ⟨[]⟩ (fun _ => true)
      = (⟨evs.filter fun e => decide (MIN_UTC < e.ts) && decide (e.ts < MAX_UTC)⟩,
         none) ∧
    (∀ e ∈ evs, MIN_UTC < e.ts → e.ts < MAX_UTC →
      ((((SpotifyAnalytics.new ⟨[]⟩).merge evs).save ⟨[]⟩
          (fun _ => true)).1.rows.count e) = evs.count e) ∧
    (∀ e ∈ evs, e.ts = MIN_UTC ∨ e.ts = MAX_UTC →
      e ∉ (((SpotifyAnalytics.new ⟨[]⟩).merge evs).save ⟨[]⟩
          (fun _ => true)).1.rows) ∧
    Store.load_all
        ⟨evs.filter fun e => decide (MIN_UTC < e.ts) && decide (e.ts < MAX_UTC)⟩
      = evs.filter fun e => decide (MIN_UTC < e.ts) && decide (e.ts < MAX_UTC) := by
  have hsavedEq : savedEvents ((SpotifyAnalytics.new ⟨[]⟩).merge evs)
      = evs.filter fun e => decide (MIN_UTC < e.ts) && decide (e.ts < MAX_UTC) := by
    simp [savedEvents, SpotifyAnalytics.merge, SpotifyAnalytics.new,
      Store.load_all, maxTsOf, minTsOf]
  have hsave : ((SpotifyAnalytics.new ⟨[]⟩).merge evs).save ⟨[]⟩ (fun _ => true)
      = (⟨evs.filter fun e => decide (MIN_UTC < e.ts) && decide (e.ts < MAX_UTC)⟩,
         none) := by
    unfold SpotifyAnalytics.save
    rw [hsavedEq]
    simpa using saveLoop_all_ok _ ⟨[]⟩
  refine ⟨hsave, ?_, ?_, rfl⟩
  · intro e he h1 h2
    simp only [hsave]
    exact List.count_filter (by simp [h1, h2])
  · intro e he hb
    simp only [hsave, List.mem_filter, Bool.and_eq_true, decide_eq_true_eq]
    rintro ⟨-, h1, h2⟩
    rcases hb with hb | hb <;> omega

/-- Name for the artist string used in concrete examples. -/
def artistA : String := "A"

/-- Name for the second artist string used in concrete examples. -/
def artistB : String := "B"

/-- Witness for C2 at a mixed merge: one strictly-in-bounds event and one
event at exactly `MIN_UTC`; the first is written exactly once, the second
is skipped. -/
theorem C2_witness :
    ((SpotifyAnalytics.new ⟨[]⟩).merge
        [mkEv 0 (some artistA) 10, mkEv MIN_UTC none 1]).save ⟨[]⟩
        (fun _ => true)
      = (⟨[mkEv 0 (some artistA) 10]⟩, none) ∧
    (((SpotifyAnalytics.new ⟨[]⟩).merge
        [mkEv 0 (some artistA) 10, mkEv MIN_UTC none 1]).save ⟨[]⟩
        (fun _ => true)).1.rows.count (mkEv 0 (some artistA) 10)
      = [mkEv 0 (some artistA) 10, mkEv MIN_UTC none 1].count
          (mkEv 0 (some artistA) 10) ∧
    mkEv MIN_UTC none 1 ∉
      (((SpotifyAnalytics.new ⟨[]⟩).merge
        [mkEv 0 (some artistA) 10, mkEv MIN_UTC none 1]).save ⟨[]⟩
        (fun _ => true)).1.rows := by
  have h := C2_empty_store_save_roundtrip
    [mkEv 0 (some artistA) 10, mkEv MIN_UTC none 1]
  exact ⟨h.1.trans (by decide),
    h.2.1 (mkEv 0 (some artistA) 10) (by decide) (by decide) (by decide),
    h.2.2.1 (mkEv MIN_UTC none 1) (by decide) (Or.inl rfl)⟩

/-- Claim C6: the merge step of a successfully parsed file appends the
parsed events, in order, to the end of the working set — no deduplication,
no filtering — and leaves `max_ts` and `min_ts` at their load-time values;
no error is raised. -/
theorem C6_merge_appends_and_preserves_bounds
    (s : SpotifyAnalytics) (e : DirEntry) (evs : List SpotifyHistoryEntry)
    (h : e.parsed = .ok evs) :
    (importJsonFile s e).1.history = s.history ++ evs ∧
    (importJsonFile s e).1.max_ts = s.max_ts ∧
    (importJsonFile s e).1.min_ts = s.min_ts ∧
    (importJsonFile s e).2 = none := by
  simp [importJsonFile, h, SpotifyAnalytics.merge]

/-- A concrete well-formed directory entry for witnesses. -/
def goodEntry : DirEntry :=
  ⟨"good.json", true, some ("json"), .ok [mkEv 1 (some artistA) 1000]⟩

/-- Witness for C6 at a concrete working set and entry. -/
theorem C6_witness :
    (importJsonFile (SpotifyAnalytics.new ⟨[]⟩) goodEntry).1.history
      = (SpotifyAnalytics.new ⟨[]⟩).history ++ [mkEv 1 (some artistA) 1000] ∧
    (importJsonFile (SpotifyAnalytics.new ⟨[]⟩) goodEntry).1.max_ts
      = (SpotifyAnalytics.new ⟨[]⟩).max_ts ∧
    (importJsonFile (SpotifyAnalytics.new ⟨[]⟩) goodEntry).1.min_ts
      = (SpotifyAnalytics.new ⟨[]⟩).min_ts ∧
    (importJsonFile (SpotifyAnalytics.new ⟨[]⟩) goodEntry).2 = none :=
  C6_merge_appends_and_preserves_bounds (SpotifyAnalytics.new ⟨[]⟩) goodEntry
    [mkEv 1 (some artistA) 1000] rfl

/-- Claim C9: `save(&self)` borrows the working set immutably (the struct
has no interior mutability), so after the call — success or error — the
caller's event sequence, `max_ts` and `min_ts` are exactly what they were
before; only the store differs. -/
theorem C9_save_preserves_memory_state
    (s : SpotifyAnalytics) (st : Store) (ok : SpotifyHistoryEntry → Bool) :
    (saveCall s st ok).1.history = s.history ∧
    (saveCall s st ok).1.max_ts = s.max_ts ∧
    (saveCall s st ok).1.min_ts = s.min_ts :=
  ⟨rfl, rfl, rfl⟩

/- ### Folder import: skipping and abort-on-error -/

theorem importFolder_eq_importAll_filter (entries : List DirEntry) :
    ∀ s : SpotifyAnalytics,
      importFolder s entries = importAll s (entries.filter shouldProcess) := by
  induction entries with
  | nil => intro s; rfl
  | cons e rest ih =>
    intro s
    obtain ⟨p, fl, ex, pr⟩ := e
    cases fl with
    | false => simp [importFolder, shouldProcess, List.filter_cons, ih s]
    | true =>
      cases ex with
      | none =>
        cases pr with
        | ok evs =>
          simp [importFolder, shouldProcess, List.filter_cons,
            importJsonFile, importAll, ih]
        | error m =>
          simp [importFolder, shouldProcess, List.filter_cons,
            importJsonFile, importAll]
      | some ext =>
        by_cases hj : ext = "json"
        · subst hj
          cases pr with
          | ok evs =>
            simp [importFolder, shouldProcess, List.filter_cons,
              importJsonFile, importAll, ih]
          | error m =>
            simp [importFolder, shouldProcess, List.filter_cons,
              importJsonFile, importAll]
        · simp [importFolder, shouldProcess, List.filter_cons, hj, ih s]

theorem importAll_all_ok (l : List DirEntry) :
    ∀ s : SpotifyAnalytics, (∀ e ∈ l, parsedOk e = true) →
      importAll s l
        = ({ s with history := s.history ++ (l.map okEvents).flatten }, none) := by
  induction l with
  | nil => intro s _; simp [importAll]
  | cons e t ih =>
    intro s hok
    have he : parsedOk e = true := hok e (List.mem_cons_self e t)
    match hp : e.parsed with
    | .ok evs =>
      have himp : importJsonFile s e = (s.merge evs, none) := by
        simp [importJsonFile, hp]
      have hoke : okEvents e = evs := by simp [okEvents, hp]
      have ht := ih (s.merge evs) (fun x hx => hok x (List.mem_cons_of_mem e hx))
      simp only [SpotifyAnalytics.merge] at ht
      simp [importAll, himp, SpotifyAnalytics.merge, hoke, ht, List.append_assoc]
    | .error m => simp [parsedOk, hp] at he

theorem importAll_stops_at_first_error (pre : List DirEntry) :
    ∀ s : SpotifyAnalytics, (∀ e ∈ pre, parsedOk e = true) →
    ∀ (bad : DirEntry) (post : List DirEntry) (msg : String),
      bad.parsed = .error msg →
      importAll s (pre ++ bad :: post)
        = ({ s with history := s.history ++ (pre.map okEvents).flatten },
           some (.parseError bad.path msg)) := by
  induction pre with
  | nil =>
    intro s _ bad post msg hmsg
    simp [importAll, importJsonFile, hmsg]
  | cons e t ih =>
    intro s hok bad post msg hmsg
    have he : parsedOk e = true := hok e (List.mem_cons_self e t)
    match hp : e.parsed with
    | .ok evs =>
      have himp : importJsonFile s e = (s.merge evs, none) := by
        simp [importJsonFile, hp]
      have hoke : okEvents e = evs := by simp [okEvents, hp]
      have ht := ih (s.merge evs) (fun x hx => hok x (List.mem_cons_of_mem e hx))
        bad post msg hmsg
      simp only [SpotifyAnalytics.merge] at ht
      simp [importAll, himp, SpotifyAnalytics.merge, hoke, ht, List.append_assoc]
    | .error m => simp [parsedOk, hp] at he

/-- A concrete extensionless regular file whose bytes parse as one event. -/
def noExtEntry : DirEntry :=
  ⟨"README", true, none, .ok [mkEv 2 (some artistB) 500]⟩

/-- A concrete regular file with a non-json extension. -/
def txtEntry : DirEntry :=
  ⟨"notes.txt", true, some ("txt"), .error ("not json")⟩

/-- A concrete subdirectory entry. -/
def subdirEntry : DirEntry :=
  ⟨"subdir", false, none, .error ("is a directory")⟩

/-- Counterexample to claim C4 as stated: the extensionless regular file
`README` does not have extension `.json`, yet the folder walk does not
skip it — `Path::extension()` returns `None`, the `if let Some(ext)` guard
falls through, and the file's parsed events enter the working set. -/
theorem C4_counterexample :
    (importFolder (SpotifyAnalytics.new ⟨[]⟩) [noExtEntry]).1.history
      = [mkEv 2 (some artistB) 500] ∧
    (importFolder (SpotifyAnalytics.new ⟨[]⟩) [noExtEntry]).1.history ≠ [] :=
  ⟨by decide, by decide⟩

/-- Claim C4 (amended): the directory import skips entries that are not
regular files and skips files carrying an extension other than `json`
(logged, not an error); every remaining entry — `.json` files and also
files with no extension at all, which the `if let` guard does not catch —
is handed to the single-file import in enumeration order.  A directory of
one valid `.json` file, one `.txt` file and one subdirectory processes
only the valid file and succeeds. -/
theorem C4_folder_import_skips_and_processes
    (s : SpotifyAnalytics) (entries : List DirEntry) :
    importFolder s entries = importAll s (entries.filter shouldProcess) ∧
    shouldProcess goodEntry = true ∧
    shouldProcess txtEntry = false ∧
    shouldProcess subdirEntry = false ∧
    importFolder (SpotifyAnalytics.new ⟨[]⟩) [goodEntry, txtEntry, subdirEntry]
      = ((SpotifyAnalytics.new ⟨[]⟩).merge [mkEv 1 (some artistA) 1000], none) :=
  ⟨importFolder_eq_importAll_filter entries s, by decide, by decide, by decide,
    by decide⟩

/-- The parse-failure message used in concrete examples. -/
def badMsg : String := "malformed"

/-- A concrete `.json` file whose bytes fail to deserialize. -/
def badEntry : DirEntry :=
  ⟨"bad.json", true, some ("json"), .error badMsg⟩

/-- Claim C5: when a processed file of the directory fails to parse, the
whole import fails with a `ParseError` naming that file; the working set
keeps the events of the files successfully imported before it and gains
nothing from the failing file or any later entry. -/
theorem C5_parse_failure_aborts_folder_import
    (s : SpotifyAnalytics) (pre post : List DirEntry) (bad : DirEntry)
    (msg : String)
    (hpre : ∀ e ∈ pre.filter shouldProcess, parsedOk e = true)
    (hbad : shouldProcess bad = true)
    (hmsg : bad.parsed = .error msg) :
    importFolder s (pre ++ bad :: post)
      = ({ s with history := s.history
            ++ ((pre.filter shouldProcess).map okEvents).flatten },
         some (ImportError.parseError bad.path msg)) := by
  rw [importFolder_eq_importAll_filter]
  rw [List.filter_append, List.filter_cons, hbad]
  simp only [if_true]
  exact importAll_stops_at_first_error (pre.filter shouldProcess) s hpre bad
    (post.filter shouldProcess) msg hmsg

/-- Witness for C5: a good file, then a malformed `.json` file, then one
more parseable file; the import keeps the first file's events, reports the
second file, and never touches the third. -/
theorem C5_witness :
    importFolder (SpotifyAnalytics.new ⟨[]⟩) ([goodEntry] ++ badEntry :: [noExtEntry])
      = ({ SpotifyAnalytics.new ⟨[]⟩ with history :=
            (SpotifyAnalytics.new ⟨[]⟩).history
              ++ (([goodEntry].filter shouldProcess).map okEvents).flatten },
         some (ImportError.parseError badEntry.path badMsg)) :=
  C5_parse_failure_aborts_folder_import (SpotifyAnalytics.new ⟨[]⟩) [goodEntry]
    [noExtEntry] badEntry badMsg (by decide) (by decide) rfl

/- ### Aggregation: the association-list model of the grouping HashMap -/

/-- Key lookup in the association-list model of the grouping map. -/
def lookupA : List (String × Nat) → String → Option Nat
  | [], _ => none
  | (k, v) :: t, a => if k = a then some v else lookupA t a

/-- Saturating accumulation of `ms_played` over the events of `h` credited
to artist `a`, starting from `acc` — the per-key effect of the grouping
loop. -/
def totalFrom (acc : Nat) (a : String) (h : List SpotifyHistoryEntry) : Nat :=
  h.foldl (fun v x => if artistOf x = some a then satAdd v x.ms_played else v) acc

theorem lookupA_bumpArtist_same (s : List (String × Nat)) (a : String) (m : Nat) :
    lookupA (bumpArtist s a m) a = some (satAdd ((lookupA s a).getD 0) m) := by
  induction s with
  | nil => simp [bumpArtist, lookupA]
  | cons kv t ih =>
    obtain ⟨k, v⟩ := kv
    by_cases hk : k = a
    · subst hk; simp [bumpArtist, lookupA]
    · simp [bumpArtist, lookupA, hk, ih]

theorem lookupA_bumpArtist_other (s : List (String × Nat)) (a b : String)
    (m : Nat) (hne : b ≠ a) :
    lookupA (bumpArtist s a m) b = lookupA s b := by
  induction s with
  | nil => simp [bumpArtist, lookupA, Ne.symm hne]
  | cons kv t ih =>
    obtain ⟨k, v⟩ := kv
    by_cases hk : k = a
    · subst hk; simp [bumpArtist, lookupA, Ne.symm hne]
    · simp [bumpArtist, lookupA, hk, ih]

theorem mem_keys_bumpArtist (s : List (String × Nat)) (a b : String) (m : Nat) :
    b ∈ (bumpArtist s a m).map Prod.fst ↔ b ∈ s.map Prod.fst ∨ b = a := by
  induction s with
  | nil => simp [bumpArtist, eq_comm]
  | cons kv t ih =>
    obtain ⟨k, v⟩ := kv
    by_cases hk : k = a
    · subst hk; simp [bumpArtist]; tauto
    · simp [bumpArtist, hk, ih]; tauto

theorem nodup_keys_bumpArtist (s : List (String × Nat)) (a : String) (m : Nat)
    (hnd : (s.map Prod.fst).Nodup) :
    ((bumpArtist s a m).map Prod.fst).Nodup := by
  induction s with
  | nil => simp [bumpArtist]
  | cons kv t ih =>
    obtain ⟨k, v⟩ := kv
    simp only [List.map_cons, List.nodup_cons] at hnd
    by_cases hk : k = a
    · subst hk
      simp [bumpArtist, List.nodup_cons, hnd.1, hnd.2]
    · have htail := ih hnd.2
      have hkmem : k ∉ (bumpArtist t a m).map Prod.fst := by
        rw [mem_keys_bumpArtist]
        push_neg
        exact ⟨hnd.1, hk⟩
      simp [bumpArtist, hk, List.nodup_cons, hkmem, htail]

theorem lookupA_foldl_groupStep (h : List SpotifyHistoryEntry) :
    ∀ (s : List (String × Nat)) (a : String),
      (lookupA (h.foldl groupStep s) a).getD 0
        = totalFrom ((lookupA s a).getD 0) a h := by
  induction h with
  | nil => intro s a; rfl
  | cons x t ih =>
    intro s a
    rw [List.foldl_cons]
    cases hx : artistOf x with
    | none =>
      rw [show groupStep s x = s by simp [groupStep, hx], ih s a]
      simp [totalFrom, hx]
    | some b =>
      rw [show groupStep s x = bumpArtist s b x.ms_played by simp [groupStep, hx],
        ih _ a]
      by_cases hab : b = a
      · subst hab
        rw [lookupA_bumpArtist_same]
        simp [totalFrom, hx]
      · rw [lookupA_bumpArtist_other s b a x.ms_played (Ne.symm hab)]
        simp [totalFrom, hx, hab]

theorem mem_keys_foldl_groupStep (h : List SpotifyHistoryEntry) :
    ∀ (s : List (String × Nat)) (a : String),
      a ∈ (h.foldl groupStep s).map Prod.fst
        ↔ a ∈ s.map Prod.fst ∨ ∃ x ∈ h, artistOf x = some a := by
  induction h with
  | nil => intro s a; simp
  | cons x t ih =>
    intro s a
    rw [List.foldl_cons]
    cases hx : artistOf x with
    | none =>
      rw [show groupStep s x = s by simp [groupStep, hx], ih s a]
      constructor
      · rintro (h1 | ⟨y, hy, hay⟩)
        · exact Or.inl h1
        · exact Or.inr ⟨y, List.mem_cons_of_mem x hy, hay⟩
      · rintro (h1 | ⟨y, hy, hay⟩)
        · exact Or.inl h1
        · rcases List.mem_cons.mp hy with rfl | hyt
          · rw [hx] at hay; cases hay
          · exact Or.inr ⟨y, hyt, hay⟩
    | some b =>
      rw [show groupStep s x = bumpArtist s b x.ms_played by simp [groupStep, hx],
        ih _ a, mem_keys_bumpArtist]
      constructor
      · rintro ((h1 | rfl) | ⟨y, hy, hay⟩)
        · exact Or.inl h1
        · exact Or.inr ⟨x, List.mem_cons_self x t, hx⟩
        · exact Or.inr ⟨y, List.mem_cons_of_mem x hy, hay⟩
      · rintro (h1 | ⟨y, hy, hay⟩)
        · exact Or.inl (Or.inl h1)
        · rcases List.mem_cons.mp hy with rfl | hyt
          · rw [hx] at hay
            exact Or.inl (Or.inr (Option.some_inj.mp hay).symm)
          · exact Or.inr ⟨y, hyt, hay⟩

theorem nodup_keys_foldl_groupStep (h : List SpotifyHistoryEntry) :
    ∀ s : List (String × Nat), (s.map Prod.fst).Nodup →
      ((h.foldl groupStep s).map Prod.fst).Nodup := by
  induction h with
  | nil => intro s hs; exact hs
  | cons x t ih =>
    intro s hs
    rw [List.foldl_cons]
    cases hx : artistOf x with
    | none => rw [show groupStep s x = s by simp [groupStep, hx]]; exact ih s hs
    | some b =>
      rw [show groupStep s x = bumpArtist s b x.ms_played by simp [groupStep, hx]]
      exact ih _ (nodup_keys_bumpArtist s b x.ms_played hs)

theorem lookupA_of_mem_of_nodup (s : List (String × Nat)) (p : String × Nat)
    (hnd : (s.map Prod.fst).Nodup) (hmem : p ∈ s) :
    lookupA s p.1 = some p.2 := by
  induction s with
  | nil => cases hmem
  | cons kv t ih =>
    obtain ⟨k, v⟩ := kv
    simp only [List.map_cons, List.nodup_cons] at hnd
    rcases List.mem_cons.mp hmem with rfl | hmt
    · simp [lookupA]
    · have hk : ¬ k = p.1 := by
        intro hkp
        apply hnd.1
        rw [hkp]
        exact List.mem_map_of_mem Prod.fst hmt
      simp [lookupA, hk, ih hnd.2 hmt]

theorem totalFrom_eq_min (h : List SpotifyHistoryEntry) :
    ∀ (acc : Nat) (a : String), acc ≤ U64MAX →
      totalFrom acc a h = min (acc + msSum (matching h a)) U64MAX := by
  induction h with
  | nil =>
    intro acc a hacc
    simp [totalFrom, matching, msSum]
    omega
  | cons x t ih =>
    intro acc a hacc
    by_cases hx : artistOf x = some a
    · have h1 : totalFrom acc a (x :: t) = totalFrom (satAdd acc x.ms_played) a t := by
        simp [totalFrom, hx]
      have h2 : satAdd acc x.ms_played ≤ U64MAX := by simp [satAdd]
      have h3 : matching (x :: t) a = x :: matching t a := by
        simp [matching, List.filter_cons, hx]
      rw [h1, ih _ a h2, h3]
      simp only [msSum, List.map_cons, List.sum_cons, satAdd]
      omega
    · have h1 : totalFrom acc a (x :: t) = totalFrom acc a t := by
        simp [totalFrom, hx]
      have h2 : matching (x :: t) a = matching t a := by
        simp [matching, List.filter_cons, hx]
      rw [h1, ih _ a hacc, h2]

theorem groupArtists_mem_value (h : List SpotifyHistoryEntry)
    (p : String × Nat) (hp : p ∈ groupArtists h) :
    p.2 = min (msSum (matching h p.1)) U64MAX := by
  have hnd : ((groupArtists h).map Prod.fst).Nodup :=
    nodup_keys_foldl_groupStep h [] (by simp)
  have hl : lookupA (groupArtists h) p.1 = some p.2 :=
    lookupA_of_mem_of_nodup _ p hnd hp
  have hfold := lookupA_foldl_groupStep h [] p.1
  rw [show h.foldl groupStep [] = groupArtists h from rfl, hl] at hfold
  simp only [Option.getD_some, lookupA, Option.getD_none] at hfold
  rw [hfold, totalFrom_eq_min h 0 p.1 (Nat.zero_le _)]
  simp

theorem groupArtists_mem_artist (h : List SpotifyHistoryEntry)
    (p : String × Nat) (hp : p ∈ groupArtists h) :
    ∃ x ∈ h, artistOf x = some p.1 := by
  have hmemk : p.1 ∈ (groupArtists h).map Prod.fst :=
    List.mem_map_of_mem Prod.fst hp
  have h2 := (mem_keys_foldl_groupStep h [] p.1).mp hmemk
  simpa using h2

theorem get_all_top_artists_length (s : SpotifyAnalytics) :
    s.get_all_top_artists.length
      = (s.history.filterMap artistOf).dedup.length := by
  have hperm : List.Perm s.get_all_top_artists (groupArtists s.history) :=
    List.perm_insertionSort artistGE _
  have hnd : ((groupArtists s.history).map Prod.fst).Nodup :=
    nodup_keys_foldl_groupStep s.history [] (by simp)
  have hmem : ∀ a, a ∈ (groupArtists s.history).map Prod.fst
      ↔ a ∈ (s.history.filterMap artistOf).dedup := by
    intro a
    rw [List.mem_dedup, List.mem_filterMap]
    exact (mem_keys_foldl_groupStep s.history [] a).trans (by simp)
  have hpk : List.Perm ((groupArtists s.history).map Prod.fst)
      ((s.history.filterMap artistOf).dedup) :=
    (List.perm_ext_iff_of_nodup hnd (List.nodup_dedup _)).mpr hmem
  calc s.get_all_top_artists.length
      = (groupArtists s.history).length := hperm.length_eq
    _ = ((groupArtists s.history).map Prod.fst).length := by simp
    _ = _ := hpk.length_eq

/-- The three-event working set of the spec's worked example:
`[(A, 1000 ms), (B, 2000 ms), (A, 500 ms)]`. -/
def exSet : SpotifyAnalytics :=
  SpotifyAnalytics.new ⟨[mkEv 0 (some artistA) 1000, mkEv 1 (some artistB) 2000,
    mkEv 2 (some artistA) 500]⟩

/-- Claim C3: every pair returned by `get_all_top_artists` carries the
saturating sum of `ms_played` over exactly the events naming that artist
(the plain sum whenever it fits in a u64); every returned artist name comes
from some event (events without an artist name contribute nothing); the
list is sorted by total descending; and on
`[(A, 1000 ms), (B, 2000 ms), (A, 500 ms)]` it yields
`[(B, 2000), (A, 1500)]`. -/
theorem C3_top_artists_grouping_and_sorting (s : SpotifyAnalytics) :
    (∀ p ∈ s.get_all_top_artists,
        p.2 = min (msSum (matching s.history p.1)) U64MAX ∧
        (msSum (matching s.history p.1) ≤ U64MAX →
          p.2 = msSum (matching s.history p.1)) ∧
        ∃ x ∈ s.history, artistOf x = some p.1) ∧
    List.Pairwise (fun a b : String × Nat => b.2 ≤ a.2) s.get_all_top_artists ∧
    exSet.get_all_top_artists = [(artistB, 2000), (artistA, 1500)] := by
  refine ⟨?_, ?_, by decide⟩
  · intro p hp
    have hpg : p ∈ groupArtists s.history := by
      simpa [SpotifyAnalytics.get_all_top_artists] using hp
    have hv := groupArtists_mem_value s.history p hpg
    refine ⟨hv, ?_, groupArtists_mem_artist s.history p hpg⟩
    intro hle
    rw [hv]
    omega
  · exact List.sorted_insertionSort artistGE (groupArtists s.history)

/-- Witness for C3 at the worked example and the pair `(B, 2000)`. -/
theorem C3_witness :
    (2000 : Nat) = min (msSum (matching exSet.history artistB)) U64MAX ∧
    (2000 : Nat) = msSum (matching exSet.history artistB) ∧
    ∃ x ∈ exSet.history, artistOf x = some artistB := by
  have h := (C3_top_artists_grouping_and_sorting exSet).1 (artistB, 2000) (by decide)
  exact ⟨h.1, h.2.1 (by decide), h.2.2⟩

/-- Claim C7: per-artist totals are accumulated with `u64::saturating_add`:
an artist whose cumulative `ms_played` exceeds the largest u64 value is
reported with exactly that maximum — no wrap-around, no error (the
aggregation is a total function). -/
theorem C7_saturating_addition (s : SpotifyAnalytics) (a : String)
    (hover : U64MAX < msSum (matching s.history a)) :
    ∀ p ∈ s.get_all_top_artists, p.1 = a → p.2 = U64MAX := by
  intro p hp hpa
  have hpg : p ∈ groupArtists s.history := by
    simpa [SpotifyAnalytics.get_all_top_artists] using hp
  have hv := groupArtists_mem_value s.history p hpg
  rw [hpa] at hv
  rw [hv]
  omega

/-- A working set whose single artist accumulates `2 * U64MAX`
milliseconds. -/
def overSet : SpotifyAnalytics :=
  SpotifyAnalytics.new ⟨[mkEv 0 (some artistA) U64MAX, mkEv 1 (some artistA) U64MAX]⟩

/-- Witness for C7: two maximal-u64 plays of the same artist clamp at
`U64MAX`. -/
theorem C7_witness :
    (artistA, U64MAX) ∈ overSet.get_all_top_artists ∧
    ((artistA, U64MAX) : String × Nat).2 = U64MAX :=
  ⟨by decide, C7_saturating_addition overSet artistA (by decide) (artistA, U64MAX)
    (by decide) rfl⟩

/-- Claim C8: `top_n_artists(n)` is the full ranked list truncated to its
first `n` entries: `n = 0` gives `[]`, any `n` at least the number of
distinct artists gives the full ranked list unmodified, and
`get_top_10_artists` is exactly `top_n_artists` at `n = 10`. -/
theorem C8_top_n_truncation (s : SpotifyAnalytics) (n : Nat) :
    top_n_artists s n = s.get_all_top_artists.take n ∧
    top_n_artists s 0 = [] ∧
    ((s.history.filterMap artistOf).dedup.length ≤ n →
      top_n_artists s n = s.get_all_top_artists) ∧
    s.get_top_10_artists = top_n_artists s 10 := by
  refine ⟨rfl, rfl, ?_, rfl⟩
  intro hn
  have hl : s.get_all_top_artists.length ≤ n := by
    rw [get_all_top_artists_length]
    exact hn
  exact List.take_of_length_le hl

/-- Witness for C8 at the worked example with `n = 5 ≥ 2` distinct
artists. -/
theorem C8_witness :
    top_n_artists exSet 5 = exSet.get_all_top_artists.take 5 ∧
    top_n_artists exSet 0 = [] ∧
    top_n_artists exSet 5 = exSet.get_all_top_artists ∧
    exSet.get_top_10_artists = top_n_artists exSet 10 := by
  have h := C8_top_n_truncation exSet 5
  exact ⟨h.1, h.2.1, h.2.2.1 (by decide), h.2.2.2⟩

/-- Claim C10: no artist name appears twice in `get_all_top_artists`: the
key list is duplicate-free and the result length equals the number of
distinct non-null artist names among the events. -/
theorem C10_distinct_artist_keys (s : SpotifyAnalytics) :
    (s.get_all_top_artists.map Prod.fst).Nodup ∧
    s.get_all_top_artists.length
      = (s.history.filterMap artistOf).dedup.length := by
  refine ⟨?_, get_all_top_artists_length s⟩
  have hperm : List.Perm s.get_all_top_artists (groupArtists s.history) :=
    List.perm_insertionSort artistGE _
  have hnd : ((groupArtists s.history).map Prod.fst).Nodup :=
    nodup_keys_foldl_groupStep s.history [] (by simp)
  exact ((hperm.map Prod.fst).nodup_iff).mpr hnd
